import Mathlib

/-!
# prom-verifier: the rule evaluation engine

A shallow embedding of `internal/engine/engine.go` (`evaluateRule`,
`calculateAlerts`, `renderAnnotations`) together with the library routines it
calls (`time.ParseDuration`, `model.Time.Time`, `time.Time.Sub`, and the
`text/template` fragment the annotation helper relies on), followed by the
theorems that settle the engine's contract.

Conventions.
* Go `int64` values are integers kept in range; arithmetic that can overflow is
  written with an explicit two's-complement wrap (`wrap64`).
* A run-time panic (index out of range) is the `none` outcome of an `Option`.
* Go maps are association lists with unique keys (`AList`); a `nil` map is
  `none`.
-/

namespace PromVerifier

/-! ## Machine integers -/

/-- Smallest `int64`, also `time.minDuration`. -/
def minInt64 : Int := -9223372036854775808

/-- Largest `int64`, also `time.maxDuration`. -/
def maxInt64 : Int := 9223372036854775807

/-- Two's-complement reduction of an integer to the `int64` range. -/
def wrap64 (x : Int) : Int := (x + 9223372036854775808) % 18446744073709551616 - 9223372036854775808

/-- Go integer division: the quotient is truncated toward zero. -/
def goDiv (a b : Int) : Int := Int.tdiv a b

/-- Go integer remainder: the sign follows the dividend. -/
def goMod (a b : Int) : Int := Int.tmod a b

/-- An `int64` value. -/
structure Int64 where
  val : Int
  lo : -9223372036854775808 ≤ val
  hi : val < 9223372036854775808
deriving DecidableEq

/-- The value a `time.Sub` result takes once clamped to the `Duration` range. -/
def saturate64 (x : Int) : Int :=
  if x < minInt64 then minInt64 else if maxInt64 < x then maxInt64 else x

/-! ## `time.Time` (wall clock only) and `model.Time` -/

/-- A `time.Time` without monotonic reading: seconds since year 1 (`ext`) and
nanoseconds within the second (`wall`). The location does not take part in
`Sub`. -/
structure GoTime where
  sec : Int
  nsec : Int
deriving DecidableEq, Repr

/-- Seconds from year 1 to the Unix epoch (`unixToInternal`). -/
def unixToInternal : Int := 62135596800

/-- The constructor `time.Unix(sec, nsec)`: normalises `nsec` into `[0, 1e9)`. -/
def Unix (sec nsec : Int) : GoTime :=
  if nsec < 0 ∨ nsec ≥ 1000000000 then
    let n := goDiv nsec 1000000000
    let sec1 := wrap64 (sec + n)
    let nsec1 := wrap64 (nsec - wrap64 (n * 1000000000))
    if nsec1 < 0 then
      ⟨wrap64 (wrap64 (sec1 - 1) + unixToInternal), wrap64 (nsec1 + 1000000000)⟩
    else
      ⟨wrap64 (sec1 + unixToInternal), nsec1⟩
  else
    ⟨wrap64 (sec + unixToInternal), nsec⟩

/-- The conversion `model.Time.Time()`: a millisecond Unix timestamp as a `time.Time`
(`second = 1000`, `nanosPerTick = 1000000`). -/
def ModelTime.Time (t : Int64) : GoTime :=
  Unix (goDiv t.val 1000) (wrap64 (goMod t.val 1000 * 1000000))

/-- The method `(*Time).addSec` for a wall-clock time: saturating addition of seconds. -/
def GoTime.addSec (t : GoTime) (d : Int) : GoTime :=
  let sum := wrap64 (t.sec + d)
  if decide (sum > t.sec) = decide (d > 0) then { t with sec := sum }
  else if d > 0 then { t with sec := 9223372036854775807 }
  else { t with sec := -9223372036854775807 }

/-- The method `Time.Add(d)`. -/
def GoTime.Add (t : GoTime) (d : Int) : GoTime :=
  let dsec := goDiv d 1000000000
  let nsec := t.nsec + goMod d 1000000000
  if nsec ≥ 1000000000 then
    GoTime.addSec { t with nsec := nsec - 1000000000 } (dsec + 1)
  else if nsec < 0 then
    GoTime.addSec { t with nsec := nsec + 1000000000 } (dsec - 1)
  else
    GoTime.addSec { t with nsec := nsec } dsec

/-- The method `Time.Equal`. -/
def GoTime.Equal (t u : GoTime) : Bool := t.sec = u.sec ∧ t.nsec = u.nsec

/-- The method `Time.Before`. -/
def GoTime.Before (t u : GoTime) : Bool := t.sec < u.sec ∨ (t.sec = u.sec ∧ t.nsec < u.nsec)

/-- The method `Time.Sub(u)`: the duration `t - u`, computed with wrapping arithmetic and
replaced by `minDuration` / `maxDuration` when adding it back to `u` does not
give `t`. -/
def GoTime.Sub (t u : GoTime) : Int :=
  let d := wrap64 (wrap64 (wrap64 (t.sec - u.sec) * 1000000000) + wrap64 (t.nsec - u.nsec))
  if (u.Add d).Equal t then d
  else if t.Before u then minInt64
  else maxInt64

/-- Total nanoseconds since year 1 of a wall-clock time. -/
def GoTime.nanos (t : GoTime) : Int := t.sec * 1000000000 + t.nsec

/-- A wall-clock time whose fields are normalised and far from the `int64` limits. -/
def GoTime.Small (t : GoTime) : Prop :=
  -4000000000000000000 ≤ t.sec ∧ t.sec ≤ 4000000000000000000 ∧ 0 ≤ t.nsec ∧ t.nsec < 1000000000

/-! ## `time.ParseDuration` -/

/-- Round a rational to the nearest integer, ties to even. -/
def roundHalfEven (q : ℚ) : Int :=
  let f := ⌊q⌋
  let r := q - f
  if r < 1 / 2 then f else if 1 / 2 < r then f + 1 else if f % 2 = 0 then f else f + 1

/-- The `float64` nearest to a non-negative rational (round to nearest, ties to
even, 53-bit significand). Only the normal range is covered, which is where
`ParseDuration` computes. -/
def toFloat64 (q : ℚ) : ℚ :=
  if q ≤ 0 then 0
  else
    let ulp : ℚ := (2 : ℚ) ^ (Int.log 2 q - 52)
    (roundHalfEven (q / ulp) : ℚ) * ulp

/-- The expression `uint64(float64(f) * (float64(unit) / scale))`: the nanoseconds contributed by
the digits after the decimal point. -/
def fractionNanos (f unit scale : Nat) : Nat :=
  (⌊toFloat64 (toFloat64 f * toFloat64 (toFloat64 unit / toFloat64 scale))⌋).toNat

/-- The byte range `'0'..'9'`. -/
def isDigit (c : Char) : Bool := 48 ≤ c.toNat && c.toNat ≤ 57

/-- The helper `leadingInt`: consumes the leading `[0-9]*`; `none` is `errLeadingInt`
(overflow past `1<<63`). The accumulator starts at 0. -/
def leadingInt : List Char → Nat → Option (Nat × List Char)
  | [], x => some (x, [])
  | c :: rest, x =>
    if !isDigit c then some (x, c :: rest)
    else if x > 9223372036854775808 / 10 then none
    else
      let x1 := (x * 10 + c.toNat - 48) % 18446744073709551616
      if x1 > 9223372036854775808 then none else leadingInt rest x1

/-- The helper `leadingFraction`: consumes the leading `[0-9]*` after the period, keeping
the digits that fit; returns the digits read, the scale `10^k` and the rest. -/
def leadingFraction : List Char → Nat → Nat → Bool → Nat × Nat × List Char
  | [], x, scale, _ => (x, scale, [])
  | c :: rest, x, scale, overflow =>
    if !isDigit c then (x, scale, c :: rest)
    else if overflow then leadingFraction rest x scale true
    else if x > (9223372036854775808 - 1) / 10 then leadingFraction rest x scale true
    else
      let y := (x * 10 + c.toNat - 48) % 18446744073709551616
      if y > 9223372036854775808 then leadingFraction rest x scale true
      else leadingFraction rest y (scale * 10) false

/-- The table `unitMap`: nanoseconds per unit. -/
def unitMap (u : String) : Option Nat :=
  if u = "ns" then some 1
  else if u = "us" then some 1000
  else if u = "µs" then some 1000
  else if u = "μs" then some 1000
  else if u = "ms" then some 1000000
  else if u = "s" then some 1000000000
  else if u = "m" then some 60000000000
  else if u = "h" then some 3600000000000
  else none

/-- The `for s != ""` loop of `ParseDuration`; `d` is the `uint64` accumulator.
Every round consumes at least the unit, so a fuel of `len(s) + 1` is never
exhausted. -/
def parseDurationLoop : Nat → List Char → Nat → Option Nat
  | 0, _, _ => none
  | fuel + 1, s, d =>
    match s with
    | [] => some d
    | c :: _ =>
      if !(c = '.' || isDigit c) then none
      else
        match leadingInt s 0 with
        | none => none
        | some (v, s1) =>
          let pre := s.length != s1.length
          let (f, scale, s2, post) :=
            match s1 with
            | '.' :: s1t =>
              let (f, scale, s2) := leadingFraction s1t 0 1 false
              (f, scale, s2, s1t.length != s2.length)
            | _ => (0, 1, s1, false)
          if !pre && !post then none
          else
            let u := s2.takeWhile (fun c => !(c = '.' || isDigit c))
            let s3 := s2.dropWhile (fun c => !(c = '.' || isDigit c))
            if u = [] then none
            else
              match unitMap (String.mk u) with
              | none => none
              | some unit =>
                if v > 9223372036854775808 / unit then none
                else
                  let v1 := v * unit
                  let v2 := if f > 0 then (v1 + fractionNanos f unit scale) % 18446744073709551616 else v1
                  if f > 0 ∧ v2 > 9223372036854775808 then none
                  else
                    let d1 := (d + v2) % 18446744073709551616
                    if d1 > 9223372036854775808 then none
                    else parseDurationLoop fuel s3 d1

/-- The function `time.ParseDuration`: the duration in nanoseconds, or `none` when Go returns
an error. -/
def ParseDuration (s : String) : Option Int :=
  let orig := s.toList
  let (neg, s1) :=
    match orig with
    | '-' :: r => (true, r)
    | '+' :: r => (false, r)
    | _ => (false, orig)
  if s1 = ['0'] then some 0
  else if s1 = [] then none
  else
    match parseDurationLoop (s1.length + 1) s1 0 with
    | none => none
    | some d =>
      if neg then some (wrap64 (-(wrap64 (d : Int))))
      else if d > 9223372036854775807 then none
      else some (wrap64 (d : Int))

/-! ## Data model (`model.Matrix`, `config.Rule`, `AlertResult`) -/

/-- A Go `map[string]string` (also `model.Metric`): unique keys by construction. -/
abbrev GoMap := AList (fun _ : String => String)

/-- A `model.SampleValue` (`float64`), carried as its IEEE-754 bit pattern; the
engine only hands it on to the template data. -/
structure SampleValue where
  bits : Nat
deriving DecidableEq, Repr

/-- A `model.SamplePair`: millisecond timestamp and value. -/
structure SamplePair where
  Timestamp : Int64
  Value : SampleValue
deriving DecidableEq

/-- A `model.SampleStream`: label set and samples. -/
structure SampleStream where
  Metric : GoMap
  Values : List SamplePair

/-- A `model.Matrix`. -/
abbrev Matrix := List SampleStream

/-- A `config.Rule`. -/
structure Rule where
  Alert : String
  Expr : String
  For : String
  Labels : GoMap
  Annotations : GoMap

/-- The type `AlertState`. -/
inductive AlertState where
  | StateFiring
  | StatePending
  | StateSilent
deriving DecidableEq, Repr

/-- The string behind an `AlertState` constant. -/
def AlertState.toString : AlertState → String
  | .StateFiring => "FIRING"
  | .StatePending => "PENDING"
  | .StateSilent => "SILENT"

/-- The type `AlertResult`; `Annotations = none` is the `nil` map. -/
structure AlertResult where
  Metric : GoMap
  Duration : Int
  State : AlertState
  Annotations : Option GoMap

/-- Go slice indexing `xs[i]` with a signed index; `none` is the
index-out-of-range panic. -/
def goIndex {α : Type} (xs : List α) (i : Int) : Option α :=
  if 0 ≤ i ∧ i < xs.length then xs[i.toNat]? else none

/-! ## Annotation rendering -/

/-- The anonymous struct handed to `Execute`. -/
structure TemplateData where
  Labels : GoMap
  Value : SampleValue

/-- The part of `text/template` that `renderAnnotations` calls: `Parse` on a
fresh template and `Execute` into a buffer. Errors are carried as their
message. -/
structure TemplateEngine where
  Template : Type
  Parse : String → Except String Template
  Execute : Template → TemplateData → Except String String

/-- The definition block prepended to every annotation template. -/
def helper : String := "{{ $labels := .Labels }}{{ $value := .Value }}"

/-- The body of the `for k, v := range rawAnnotations` loop: the string stored
under `k`. -/
def renderOne (E : TemplateEngine) (data : TemplateData) (v : String) : String :=
  match E.Parse (helper ++ v) with
  | .error err => "<template_error: " ++ err ++ ">"
  | .ok tmpl =>
    match E.Execute tmpl data with
    | .error err => "<render_error: " ++ err ++ ">"
    | .ok out => out

/-- The template data built from a label set and a value: the labels are copied
entry by entry into a fresh map. -/
def templateData (labels : GoMap) (value : SampleValue) : TemplateData :=
  { Labels := labels.entries.foldl (fun m kv => m.insert kv.1 kv.2) ∅
    Value := value }

/-- The function `renderAnnotations`: renders every annotation template, keeping a
placeholder for a template that fails to parse or to execute. -/
def renderAnnotations (E : TemplateEngine) (rawAnnotations : GoMap) (labels : GoMap)
    (value : SampleValue) : GoMap :=
  let data := templateData labels value
  rawAnnotations.entries.foldl (fun rendered kv => rendered.insert kv.1 (renderOne E data kv.2)) ∅

/-! ## The evaluator -/

/-- The `forDuration` computed at the head of `calculateAlerts`. -/
def forDuration (rule : Rule) : Int :=
  if rule.For ≠ "" then
    match ParseDuration rule.For with
    | some d => d
    | none => 0
  else 0

/-- One round of the `for _, stream := range matrix` loop: the `AlertResult`
appended for `stream`, or `none` when the round panics. -/
def alertFor (E : TemplateEngine) (rule : Rule) (forDuration : Int) (stream : SampleStream) :
    Option AlertResult :=
  if stream.Values.length < 2 then
    let state := if forDuration = 0 then AlertState.StateFiring else AlertState.StatePending
    if state = AlertState.StateFiring then
      match goIndex stream.Values ((stream.Values.length : Int) - 1) with
      | none => none
      | some last =>
        some { Metric := stream.Metric, Duration := 0, State := state,
               Annotations := some (renderAnnotations E rule.Annotations stream.Metric last.Value) }
    else
      some { Metric := stream.Metric, Duration := 0, State := state, Annotations := none }
  else
    match goIndex stream.Values 0, goIndex stream.Values ((stream.Values.length : Int) - 1) with
    | some first, some last =>
      let firstTime := ModelTime.Time first.Timestamp
      let lastTime := ModelTime.Time last.Timestamp
      let duration := lastTime.Sub firstTime
      let state := if duration ≥ forDuration then AlertState.StateFiring else AlertState.StatePending
      if state = AlertState.StateFiring then
        some { Metric := stream.Metric, Duration := duration, State := state,
               Annotations := some (renderAnnotations E rule.Annotations stream.Metric last.Value) }
      else
        some { Metric := stream.Metric, Duration := duration, State := state, Annotations := none }
    | _, _ => none

/-- The loop of `calculateAlerts`, with `results` the slice built so far. -/
def calculateAlertsLoop (E : TemplateEngine) (rule : Rule) (forDuration : Int) :
    List SampleStream → List AlertResult → Option (List AlertResult)
  | [], results => some results
  | stream :: rest, results =>
    match alertFor E rule forDuration stream with
    | none => none
    | some r => calculateAlertsLoop E rule forDuration rest (results ++ [r])

/-- The function `calculateAlerts`: one `AlertResult` per series, or `none` on a panic. -/
def calculateAlerts (E : TemplateEngine) (matrix : Matrix) (rule : Rule) : Option (List AlertResult) :=
  calculateAlertsLoop E rule (forDuration rule) matrix []

/-- What a range query hands back: a matrix, or a value of another type. -/
inductive QueryValue where
  | matrix (m : Matrix)
  | other

/-- One `AddResult` call received by the reporter. -/
structure Report where
  rule : Rule
  metric : GoMap
  duration : Int
  state : String
  annotations : Option GoMap

/-- The function `evaluateRule`: `v1api` stands for `QueryRange` over the fixed range of the
run, `rep` is the list of `AddResult` calls made so far. A query error is
printed and the rule skipped. `none` is a panic inside `calculateAlerts`. -/
def evaluateRule (E : TemplateEngine) (v1api : String → Except String QueryValue) (rule : Rule)
    (rep : List Report) : Option (List Report) :=
  match v1api rule.Expr with
  | .error _ => some rep
  | .ok .other => some rep
  | .ok (.matrix matrix) =>
    if matrix.length = 0 then
      some (rep ++ [⟨rule, ∅, 0, AlertState.StateSilent.toString, none⟩])
    else
      match calculateAlerts E matrix rule with
      | none => none
      | some results =>
        some (results.foldl
          (fun rep res => rep ++ [⟨rule, res.Metric, res.Duration, res.State.toString, res.Annotations⟩])
          rep)

/-! ## A fragment of `text/template`

The templates made of literal text and of actions `{{ operand }}` and
`{{ $x := operand }}`, where an operand is a field chain on dot (`.Labels.job`)
or on a variable (`$labels.job`), that parse, execute without error and print
elements of the label map only (`<no value>` for a key the map does not have,
no `missingkey` option being set). Everything else (pipelines, functions, control structures, trim
markers, comments, printing the value or a whole map, identifiers outside
ASCII, any error) is left to an engine given as a parameter. -/

/-- The predicate `isSpace` of the template lexer. -/
def isSpace (c : Char) : Bool := c = ' ' || c = '\t' || c = '\r' || c = '\n'

/-- The predicate `isAlphaNumeric` of the template lexer, restricted to ASCII. -/
def isAlnum (c : Char) : Bool := c = '_' || c.isAlphanum

/-- An identifier character that is not a digit (a field name starts with one:
a digit after the period starts a number). -/
def isIdentStart (c : Char) : Bool := c = '_' || c.isAlpha

/-- An operand: `FieldNode` (`.A.B`) or `VariableNode` (`$x.A.B`). -/
inductive Operand where
  | field (idents : List String)
  | variable (name : String) (idents : List String)
deriving DecidableEq, Repr

/-- What an operand evaluates to on the data of `renderAnnotations`: the struct
itself, its `Labels` map, its `Value`, or the element of the map under a label
(no value at all when the map has no such key). -/
inductive Sym where
  | data
  | labels
  | value
  | label (name : String)
deriving DecidableEq, Repr

/-- The step `evalField` on each kind of receiver: a struct field by name, a map element
by key; a string or a float has no fields. -/
def Sym.field : Sym → String → Option Sym
  | .data, n => if n = "Labels" then some .labels else if n = "Value" then some .value else none
  | .labels, n => some (.label n)
  | .value, _ => none
  | .label _, _ => none

/-- A piece of output: literal text, or the string stored under a label. -/
inductive Piece where
  | text (s : String)
  | label (name : String)
deriving DecidableEq, Repr

/-- The text up to the next left delimiter, and what follows the delimiter. -/
def splitAtDelim : List Char → List Char × Option (List Char)
  | [] => ([], none)
  | '{' :: '{' :: rest => ([], some rest)
  | c :: rest =>
    let (t, r) := splitAtDelim rest
    (c :: t, r)

/-- A chain of `.name` fields; the fuel bounds the number of fields. -/
def parseFields : Nat → List Char → Option (List String × List Char)
  | 0, _ => none
  | fuel + 1, '.' :: c :: rest =>
    if isIdentStart c then
      match parseFields fuel (rest.dropWhile isAlnum) with
      | none => none
      | some (fs, r) => some (String.mk (c :: rest.takeWhile isAlnum) :: fs, r)
    else none
  | _ + 1, cs => some ([], cs)

/-- An operand at the head of the input. -/
def parseOperand (cs : List Char) : Option (Operand × List Char) :=
  match cs with
  | '$' :: rest =>
    match parseFields (rest.length + 1) (rest.dropWhile isAlnum) with
    | none => none
    | some (fs, r) => some (.variable (String.mk ('$' :: rest.takeWhile isAlnum)) fs, r)
  | '.' :: _ =>
    match parseFields (cs.length + 1) cs with
    | some (f :: fs, r) => some (.field (f :: fs), r)
    | _ => none
  | _ => none

/-- The inside of an action up to and including the right delimiter: the
declared variable if any, the operand, and the input after the delimiter. -/
def parseAction (cs : List Char) : Option (Option String × Operand × List Char) :=
  match parseOperand (cs.dropWhile isSpace) with
  | none => none
  | some (op, r1) =>
    match r1.dropWhile isSpace with
    | '}' :: '}' :: rest => some (none, op, rest)
    | ':' :: '=' :: r2 =>
      match op with
      | .variable name [] =>
        match parseOperand (r2.dropWhile isSpace) with
        | none => none
        | some (op2, r3) =>
          match r3.dropWhile isSpace with
          | '}' :: '}' :: rest => some (some name, op2, rest)
          | _ => none
      | _ => none
    | _ => none

/-- The value of an operand, given the variables declared so far (innermost
first); `none` for an undefined variable or a field that does not exist. -/
def evalOperand (vars : List (String × Sym)) : Operand → Option Sym
  | .field idents => idents.foldlM Sym.field Sym.data
  | .variable name idents =>
    match vars.lookup name with
    | none => none
    | some base => idents.foldlM Sym.field base

/-- Parses a template of the fragment into its output pieces; `none` when the
template leaves the fragment. The fuel bounds the number of actions. -/
def parseTemplate : Nat → List Char → List (String × Sym) → Option (List Piece)
  | 0, _, _ => none
  | fuel + 1, cs, vars =>
    match splitAtDelim cs with
    | (txt, none) => some [.text (String.mk txt)]
    | (txt, some rest) =>
      match parseAction rest with
      | none => none
      | some (decl, op, rest1) =>
        match evalOperand vars op with
        | none => none
        | some sym =>
          match decl with
          | some x =>
            match parseTemplate fuel rest1 ((x, sym) :: vars) with
            | none => none
            | some ps => some (.text (String.mk txt) :: ps)
          | none =>
            match sym with
            | .label n =>
              match parseTemplate fuel rest1 vars with
              | none => none
              | some ps => some (.text (String.mk txt) :: .label n :: ps)
            | _ => none

/-- The output of one piece: text as it stands, a label as the map element.
The template is executed without any `Option` call, so a missing key is handled
as `missingkey=default`: the index yields an invalid value, printed as
`<no value>`. -/
def Piece.render (data : TemplateData) : Piece → String
  | .text s => s
  | .label n => (data.Labels.lookup n).getD "<no value>"

/-- The output of a parsed template of the fragment. -/
def renderPieces (data : TemplateData) (ps : List Piece) : String :=
  String.join (ps.map (Piece.render data))

/-- The package `text/template` as `renderAnnotations` uses it: the fragment above, and
`ext` for every template outside it. -/
def textTemplate (ext : TemplateEngine) : TemplateEngine where
  Template := List Piece ⊕ ext.Template
  Parse := fun src =>
    match parseTemplate (src.length + 1) src.toList [("$", Sym.data)] with
    | some ps => .ok (.inl ps)
    | none =>
      match ext.Parse src with
      | .error err => .error err
      | .ok t => .ok (.inr t)
  Execute := fun t data =>
    match t with
    | .inl ps => .ok (renderPieces data ps)
    | .inr t => ext.Execute t data

/-- The action that prints the label `name` through the helper's variable. -/
def labelReference (name : String) : String := "\x7b\x7b $labels." ++ name ++ " \x7d\x7d"

/-- A label name the fragment reads as one field: an ASCII letter or underscore
followed by ASCII letters, digits and underscores. -/
def IsLabelName (name : String) : Prop :=
  ∃ c cs, name.toList = c :: cs ∧ isIdentStart c = true ∧ ∀ x ∈ cs, isAlnum x = true

/-- An engine that rejects every template; stands in for the part of
`text/template` outside the fragment in closed examples. -/
def noEngine : TemplateEngine where
  Template := Unit
  Parse := fun _ => .error "unsupported"
  Execute := fun _ _ => .error "unsupported"

/-! ## Concrete inputs used by the closed theorems -/

/-- A sample at a small non-negative millisecond timestamp, with value bits 0. -/
def sampleAt (ms : Nat) (h : (ms : Int) < 9223372036854775808) : SamplePair :=
  { Timestamp := ⟨(ms : Int), by omega, h⟩, Value := ⟨0⟩ }

/-- A rule with the given "for" string and nothing else. -/
def ruleFor (f : String) : Rule :=
  { Alert := "", Expr := "", For := f, Labels := ∅, Annotations := ∅ }

/-- A series without labels. -/
def seriesOf (vs : List SamplePair) : SampleStream :=
  { Metric := ∅, Values := vs }

/-- The states of the results of a call, when it returns. -/
def statesOf (res : Option (List AlertResult)) : Option (List AlertState) :=
  res.map (fun rs => rs.map (fun r => r.State))

/-- The durations of the results of a call, when it returns. -/
def durationsOf (res : Option (List AlertResult)) : Option (List Int) :=
  res.map (fun rs => rs.map (fun r => r.Duration))

/-! ## Arithmetic of `time.Time` -/

theorem goDiv_of_nonneg {a b : Int} (ha : 0 ≤ a) (hb : 0 ≤ b) : goDiv a b = a / b :=
  Int.tdiv_eq_ediv ha hb

theorem goDiv_of_nonpos {a b : Int} (ha : a ≤ 0) (hb : 0 ≤ b) : goDiv a b = -((-a) / b) := by
  have h := Int.neg_tdiv (-a) b
  rw [Int.neg_neg] at h
  unfold goDiv
  rw [h, Int.tdiv_eq_ediv (by omega) hb]

theorem goMod_eq (a b : Int) : goMod a b = a - b * goDiv a b := by
  have h := Int.tdiv_add_tmod a b
  unfold goMod goDiv
  omega

theorem wrap64_of_inRange {x : Int} (h1 : -9223372036854775808 ≤ x) (h2 : x < 9223372036854775808) :
    wrap64 x = x := by
  unfold wrap64; omega

theorem addSec_of_small (s n d : Int)
    (ht : -4000000000000000000 ≤ s ∧ s ≤ 4000000000000000000)
    (hd : -4000000000000000000 ≤ d ∧ d ≤ 4000000000000000000) :
    GoTime.addSec ⟨s, n⟩ d = ⟨s + d, n⟩ := by
  unfold GoTime.addSec
  have hw : wrap64 (s + d) = s + d := wrap64_of_inRange (by omega) (by omega)
  simp only [hw]
  have : decide (s + d > s) = decide (d > 0) := by
    rw [decide_eq_decide]; omega
  simp [this]

theorem add_nanos (u : GoTime) (d : Int) (hu : u.Small)
    (hd1 : -9223372036854775808 ≤ d) (hd2 : d < 9223372036854775808) :
    (u.Add d).nanos = u.nanos + d ∧ 0 ≤ (u.Add d).nsec ∧ (u.Add d).nsec < 1000000000 := by
  obtain ⟨h1, h2, h3, h4⟩ := hu
  have hm := goMod_eq d 1000000000
  have hq : -9223372037 ≤ goDiv d 1000000000 ∧ goDiv d 1000000000 ≤ 9223372037 := by
    rcases Int.le_total 0 d with h | h
    · rw [goDiv_of_nonneg h (by decide)]; omega
    · rw [goDiv_of_nonpos h (by decide)]; omega
  have hr : -1000000000 < goMod d 1000000000 ∧ goMod d 1000000000 < 1000000000 := by
    rw [hm]
    rcases Int.le_total 0 d with h | h
    · rw [goDiv_of_nonneg h (by decide)]; omega
    · rw [goDiv_of_nonpos h (by decide)]; omega
  unfold GoTime.Add
  simp only []
  generalize goDiv d 1000000000 = q at *
  generalize goMod d 1000000000 = r at *
  split
  · rw [addSec_of_small u.sec _ _ ⟨h1, h2⟩ (by omega)]
    simp only [GoTime.nanos]
    omega
  · split
    · rw [addSec_of_small u.sec _ _ ⟨h1, h2⟩ (by omega)]
      simp only [GoTime.nanos]
      omega
    · rw [addSec_of_small u.sec _ _ ⟨h1, h2⟩ (by omega)]
      simp only [GoTime.nanos]
      omega

theorem sub_eq_saturate (t u : GoTime) (ht : t.Small) (hu : u.Small) :
    t.Sub u = saturate64 (t.nanos - u.nanos) := by
  have ht' := ht
  have hu' := hu
  obtain ⟨a1, a2, a3, a4⟩ := ht'
  obtain ⟨b1, b2, b3, b4⟩ := hu'
  unfold GoTime.Sub
  simp only []
  have e1 : wrap64 (t.sec - u.sec) = t.sec - u.sec := wrap64_of_inRange (by omega) (by omega)
  have e2 : wrap64 (t.nsec - u.nsec) = t.nsec - u.nsec := wrap64_of_inRange (by omega) (by omega)
  rw [e1, e2]
  have e3 : wrap64 (wrap64 ((t.sec - u.sec) * 1000000000) + (t.nsec - u.nsec))
      = wrap64 (t.nanos - u.nanos) := by
    unfold wrap64 GoTime.nanos; omega
  rw [e3]
  have hd : -9223372036854775808 ≤ wrap64 (t.nanos - u.nanos) ∧
      wrap64 (t.nanos - u.nanos) < 9223372036854775808 := by
    unfold wrap64; omega
  obtain ⟨hn, hr1, hr2⟩ := add_nanos u _ hu hd.1 hd.2
  generalize hw : wrap64 (t.nanos - u.nanos) = w at *
  generalize u.Add w = v at *
  have heq : v.Equal t = true ↔ w = t.nanos - u.nanos := by
    simp only [GoTime.Equal, decide_eq_true_eq]
    simp only [GoTime.nanos] at hn ⊢
    omega
  have hbef : t.Before u = true ↔ t.nanos < u.nanos := by
    simp only [GoTime.Before, decide_eq_true_eq, GoTime.nanos]
    omega
  unfold saturate64 minInt64 maxInt64
  by_cases hc : w = t.nanos - u.nanos
  · rw [if_pos (heq.2 hc)]
    rw [hc] at hd ⊢
    rw [if_neg (by omega), if_neg (by omega)]
  · have hne : ¬ (v.Equal t = true) := fun h => hc (heq.1 h)
    rw [if_neg hne]
    have hout : t.nanos - u.nanos < -9223372036854775808 ∨
        9223372036854775807 < t.nanos - u.nanos := by
      by_contra hcon
      exact hc (hw ▸ (wrap64_of_inRange (by omega) (by omega)))
    by_cases hb : t.nanos < u.nanos
    · rw [if_pos (hbef.2 hb), if_pos (by omega)]
    · have hnb : ¬ (t.Before u = true) := fun h => hb (hbef.1 h)
      rw [if_neg hnb, if_neg (by omega), if_pos (by omega)]
theorem modelTime_small_nanos (a : Int64) :
    (ModelTime.Time a).Small ∧
      (ModelTime.Time a).nanos = a.val * 1000000 + unixToInternal * 1000000000 := by
  obtain ⟨a, ha1, ha2⟩ := a
  have hm := goMod_eq a 1000
  simp only [ModelTime.Time, hm, unixToInternal]
  have hq : (0 ≤ a → goDiv a 1000 = a / 1000) ∧ (a ≤ 0 → goDiv a 1000 = -((-a) / 1000)) :=
    ⟨fun h => goDiv_of_nonneg h (by decide), fun h => goDiv_of_nonpos h (by decide)⟩
  generalize goDiv a 1000 = q at *
  have hqb : -9223372036854776 ≤ q ∧ q ≤ 9223372036854776 := by
    rcases Int.le_total 0 a with h | h
    · have := hq.1 h; omega
    · have := hq.2 h; omega
  have hrb : -1000 < a - 1000 * q ∧ a - 1000 * q < 1000 := by
    rcases Int.le_total 0 a with h | h
    · have := hq.1 h; omega
    · have := hq.2 h; omega
  have hw : wrap64 ((a - 1000 * q) * 1000000) = (a - 1000 * q) * 1000000 :=
    wrap64_of_inRange (by omega) (by omega)
  rw [hw]
  generalize hr : a - 1000 * q = r at *
  unfold Unix
  simp only [unixToInternal]
  by_cases hneg : r < 0
  · have hn : goDiv (r * 1000000) 1000000000 = 0 := by
      rw [goDiv_of_nonpos (by omega) (by decide)]; omega
    have c1 : r * 1000000 < 0 ∨ r * 1000000 ≥ 1000000000 := Or.inl (by omega)
    simp only [if_pos c1, hn]
    have w1 : wrap64 (q + 0) = q := by
      rw [Int.add_zero]; exact wrap64_of_inRange (by omega) (by omega)
    have w2 : wrap64 ((0 : Int) * 1000000000) = 0 := by decide
    have w3 : wrap64 (r * 1000000 - 0) = r * 1000000 := by
      rw [Int.sub_zero]; exact wrap64_of_inRange (by omega) (by omega)
    have w4 : wrap64 (q - 1) = q - 1 := wrap64_of_inRange (by omega) (by omega)
    have w5 : wrap64 (q - 1 + 62135596800) = q - 1 + 62135596800 :=
      wrap64_of_inRange (by omega) (by omega)
    have w6 : wrap64 (r * 1000000 + 1000000000) = r * 1000000 + 1000000000 :=
      wrap64_of_inRange (by omega) (by omega)
    simp only [w1, w2, w3, w4, w5, w6]
    rw [if_pos (by omega)]
    simp only [GoTime.Small, GoTime.nanos, unixToInternal]
    omega
  · have c1 : ¬ (r * 1000000 < 0 ∨ r * 1000000 ≥ 1000000000) := by omega
    simp only [if_neg c1]
    have w5 : wrap64 (q + 62135596800) = q + 62135596800 :=
      wrap64_of_inRange (by omega) (by omega)
    simp only [w5, GoTime.Small, GoTime.nanos, unixToInternal]
    omega

theorem sub_modelTime (a b : Int64) :
    (ModelTime.Time a).Sub (ModelTime.Time b) = saturate64 ((a.val - b.val) * 1000000) := by
  obtain ⟨ha, hna⟩ := modelTime_small_nanos a
  obtain ⟨hb, hnb⟩ := modelTime_small_nanos b
  rw [sub_eq_saturate _ _ ha hb, hna, hnb]
  congr 1
  omega

/-! ## The loop of `calculateAlerts` -/

theorem loop_some_iff (E : TemplateEngine) (rule : Rule) (fd : Int) (m : List SampleStream)
    (acc res : List AlertResult) :
    calculateAlertsLoop E rule fd m acc = some res ↔
      ∃ rs, res = acc ++ rs ∧ List.Forall₂ (fun s r => alertFor E rule fd s = some r) m rs := by
  induction m generalizing acc with
  | nil =>
    simp only [calculateAlertsLoop, Option.some.injEq, List.forall₂_nil_left_iff]
    constructor
    · intro h; exact ⟨[], by simp [h], rfl⟩
    · rintro ⟨rs, h, rfl⟩; simp [h]
  | cons s m ih =>
    simp only [calculateAlertsLoop]
    cases hs : alertFor E rule fd s with
    | none =>
      simp only [List.forall₂_cons_left_iff, hs]
      constructor
      · intro h; cases h
      · rintro ⟨_, _, r, _, h, _⟩; cases h
    | some r =>
      simp only [ih]
      constructor
      · rintro ⟨rs, h1, h2⟩
        exact ⟨r :: rs, by simp [h1], List.Forall₂.cons hs h2⟩
      · rintro ⟨rs, h1, h2⟩
        cases h2 with
        | cons hh ht =>
          rw [hs] at hh
          cases hh
          exact ⟨_, by simp [h1], ht⟩

theorem calculateAlerts_some_iff (E : TemplateEngine) (m : Matrix) (rule : Rule)
    (res : List AlertResult) :
    calculateAlerts E m rule = some res ↔
      List.Forall₂ (fun s r => alertFor E rule (forDuration rule) s = some r) m res := by
  unfold calculateAlerts
  rw [loop_some_iff]
  constructor
  · rintro ⟨rs, h, hf⟩
    simpa [h] using hf
  · intro h
    exact ⟨res, by simp, h⟩

theorem forall₂_getElem? {α β : Type} {R : α → β → Prop} {l₁ : List α} {l₂ : List β}
    (h : List.Forall₂ R l₁ l₂) (i : Nat) (a : α) (ha : l₁[i]? = some a) :
    ∃ b, l₂[i]? = some b ∧ R a b := by
  induction h generalizing i with
  | nil => simp at ha
  | cons hab _ ih =>
    cases i with
    | zero =>
      simp only [List.getElem?_cons_zero, Option.some.injEq] at ha
      subst ha
      exact ⟨_, by simp, hab⟩
    | succ i =>
      simp only [List.getElem?_cons_succ] at ha ⊢
      exact ih i ha

/-- Every result of a call that returns is the result of the round for the
series at the same position. -/
theorem calculateAlerts_getElem? {E : TemplateEngine} {m : Matrix} {rule : Rule}
    {res : List AlertResult} (h : calculateAlerts E m rule = some res) (i : Nat)
    (stream : SampleStream) (hi : m[i]? = some stream) :
    ∃ r, res[i]? = some r ∧ alertFor E rule (forDuration rule) stream = some r :=
  forall₂_getElem? ((calculateAlerts_some_iff E m rule res).1 h) i stream hi

theorem calculateAlerts_length {E : TemplateEngine} {m : Matrix} {rule : Rule}
    {res : List AlertResult} (h : calculateAlerts E m rule = some res) :
    res.length = m.length :=
  ((calculateAlerts_some_iff E m rule res).1 h).length_eq.symm

theorem goIndex_zero {α : Type} (xs : List α) : goIndex xs 0 = xs.head? := by
  unfold goIndex
  cases xs <;> simp

theorem goIndex_last {α : Type} (xs : List α) :
    goIndex xs ((xs.length : Int) - 1) = xs.getLast? := by
  unfold goIndex
  rcases List.eq_nil_or_concat xs with h | ⟨l, a, h⟩
  · subst h; simp
  · rw [List.concat_eq_append] at h
    subst h
    have e : (((l ++ [a]).length : Nat) : Int) - 1 = ((l.length : Nat) : Int) := by
      simp only [List.length_append, List.length_singleton]; omega
    rw [e]
    have c : (0 : Int) ≤ ((l.length : Nat) : Int) ∧
        ((l.length : Nat) : Int) < (((l ++ [a]).length : Nat) : Int) := by
      simp only [List.length_append, List.length_singleton]; omega
    rw [if_pos c]
    simp

/-- The round for a series with fewer than two samples. -/
theorem alertFor_of_lt_two (E : TemplateEngine) (rule : Rule) (fd : Int) (s : SampleStream)
    (h : s.Values.length < 2) :
    alertFor E rule fd s =
      if fd = 0 then
        s.Values.getLast?.map (fun last =>
          { Metric := s.Metric, Duration := 0, State := AlertState.StateFiring,
            Annotations := some (renderAnnotations E rule.Annotations s.Metric last.Value) })
      else
        some { Metric := s.Metric, Duration := 0, State := AlertState.StatePending,
               Annotations := none } := by
  unfold alertFor
  rw [if_pos h, goIndex_last]
  by_cases hfd : fd = 0
  · simp only [hfd, if_true]
    cases s.Values.getLast? <;> rfl
  · simp [hfd]

/-- The round for a series with two or more samples. -/
theorem alertFor_of_two_le (E : TemplateEngine) (rule : Rule) (fd : Int) (s : SampleStream)
    (first last : SamplePair) (h : 2 ≤ s.Values.length) (hf : s.Values.head? = some first)
    (hl : s.Values.getLast? = some last) :
    alertFor E rule fd s =
      if fd ≤ saturate64 ((last.Timestamp.val - first.Timestamp.val) * 1000000) then
        some { Metric := s.Metric
               Duration := saturate64 ((last.Timestamp.val - first.Timestamp.val) * 1000000)
               State := AlertState.StateFiring
               Annotations := some (renderAnnotations E rule.Annotations s.Metric last.Value) }
      else
        some { Metric := s.Metric
               Duration := saturate64 ((last.Timestamp.val - first.Timestamp.val) * 1000000)
               State := AlertState.StatePending
               Annotations := none } := by
  unfold alertFor
  rw [if_neg (by omega), goIndex_last, goIndex_zero, hf, hl]
  simp only [sub_modelTime]
  by_cases hc : fd ≤ saturate64 ((last.Timestamp.val - first.Timestamp.val) * 1000000)
  · simp [hc]
  · simp [hc]

/-- A round panics exactly on a series without samples under a zero "for". -/
theorem alertFor_eq_none_iff (E : TemplateEngine) (rule : Rule) (fd : Int) (s : SampleStream) :
    alertFor E rule fd s = none ↔ s.Values = [] ∧ fd = 0 := by
  by_cases h : s.Values.length < 2
  · rw [alertFor_of_lt_two E rule fd s h]
    by_cases hfd : fd = 0
    · simp [hfd]
    · simp [hfd]
  · obtain ⟨first, hf⟩ : ∃ first, s.Values.head? = some first := by
      cases hv : s.Values with
      | nil => simp [hv] at h
      | cons a l => exact ⟨a, rfl⟩
    obtain ⟨last, hl⟩ : ∃ last, s.Values.getLast? = some last := by
      have hne : s.Values ≠ [] := by
        intro hv; simp [hv] at h
      exact ⟨_, List.getLast?_eq_getLast _ hne⟩
    rw [alertFor_of_two_le E rule fd s first last (by omega) hf hl]
    have hne : s.Values ≠ [] := by
      intro hv; simp [hv] at h
    split <;> simp [hne]

/-! ## The "for" duration -/

theorem wrap64_bounds (x : Int) : minInt64 ≤ wrap64 x ∧ wrap64 x ≤ maxInt64 := by
  unfold wrap64 minInt64 maxInt64; omega

/-- A parsed duration is an int64. -/
theorem ParseDuration_bounds {s : String} {F : Int} (h : ParseDuration s = some F) :
    minInt64 ≤ F ∧ F ≤ maxInt64 := by
  unfold ParseDuration at h
  simp only [] at h
  split at h
  · cases h; unfold minInt64 maxInt64; omega
  · split at h
    · cases h
    · split at h
      · cases h
      · split at h
        · rw [← Option.some.inj h]; exact wrap64_bounds _
        · split at h
          · cases h
          · rw [← Option.some.inj h]; exact wrap64_bounds _

theorem ParseDuration_empty : ParseDuration "" = none := by decide

theorem ParseDuration_0s : ParseDuration "0s" = some 0 := by decide

theorem forDuration_of_parse {rule : Rule} {F : Int} (h : ParseDuration rule.For = some F) :
    forDuration rule = F := by
  unfold forDuration
  have hne : rule.For ≠ "" := by
    intro he
    rw [he, ParseDuration_empty] at h
    cases h
  rw [if_pos hne, h]

theorem forDuration_of_fail {rule : Rule} (h : ParseDuration rule.For = none) :
    forDuration rule = 0 := by
  unfold forDuration
  rw [h]
  split <;> rfl

theorem forDuration_of_instant {rule : Rule} (h : rule.For = "" ∨ rule.For = "0s") :
    forDuration rule = 0 := by
  rcases h with h | h
  · exact forDuration_of_fail (by rw [h]; exact ParseDuration_empty)
  · exact forDuration_of_parse (by rw [h]; exact ParseDuration_0s)

theorem le_saturate64_iff {F x : Int} (h1 : minInt64 ≤ F) (h2 : F ≤ maxInt64) :
    F ≤ saturate64 x ↔ (F ≤ x ∨ F = minInt64) := by
  unfold saturate64 minInt64 maxInt64 at *
  split
  · omega
  · split <;> omega

/-- Rounds that all succeed give a call that returns. -/
theorem forall₂_of_forall {α β : Type} {f : α → Option β} {P : β → Prop} (l : List α)
    (h : ∀ a ∈ l, ∃ b, f a = some b ∧ P b) :
    ∃ bs, List.Forall₂ (fun a b => f a = some b) l bs ∧ ∀ b ∈ bs, P b := by
  induction l with
  | nil => exact ⟨[], List.Forall₂.nil, by simp⟩
  | cons a l ih =>
    obtain ⟨b, hb, hp⟩ := h a (List.mem_cons_self a l)
    obtain ⟨bs, hbs, hps⟩ := ih (fun x hx => h x (List.mem_cons_of_mem a hx))
    refine ⟨b :: bs, List.Forall₂.cons hb hbs, ?_⟩
    intro x hx
    rcases List.mem_cons.1 hx with rfl | hx
    · exact hp
    · exact hps x hx

/-! ## The contract of the evaluator -/


theorem head?_getLast?_of_ne_nil {α : Type} {l : List α} (h : l ≠ []) :
    ∃ first last, l.head? = some first ∧ l.getLast? = some last := by
  cases l with
  | nil => exact absurd rfl h
  | cons a l => exact ⟨a, _, rfl, List.getLast?_eq_getLast _ (List.cons_ne_nil a l)⟩

/-- The result of a round carries the label set of its series. -/
theorem alertFor_metric {E : TemplateEngine} {rule : Rule} {fd : Int} {s : SampleStream}
    {r : AlertResult} (ha : alertFor E rule fd s = some r) : r.Metric = s.Metric := by
  by_cases h2 : s.Values.length < 2
  · rw [alertFor_of_lt_two E rule fd s h2] at ha
    split at ha
    · cases hl : s.Values.getLast? with
      | none => rw [hl] at ha; cases ha
      | some last =>
        rw [hl] at ha
        cases ha; rfl
    · cases ha; rfl
  · have hne : s.Values ≠ [] := by
      intro hv; simp [hv] at h2
    obtain ⟨first, last, hf, hl⟩ := head?_getLast?_of_ne_nil hne
    rw [alertFor_of_two_le E rule fd s first last (by omega) hf hl] at ha
    split at ha
    · cases ha; rfl
    · cases ha; rfl

/-- The state of a series with two or more samples for any parsed "for" F and
any order of the samples: FIRING if and only if the span last - first (in
nanoseconds) is at least F or F is the smallest Duration. -/
theorem state_of_span (E : TemplateEngine) (rule : Rule) (F : Int) (matrix : Matrix)
    (results : List AlertResult) (i : Nat) (stream : SampleStream) (first last : SamplePair)
    (hparse : ParseDuration rule.For = some F)
    (hres : calculateAlerts E matrix rule = some results)
    (hi : matrix[i]? = some stream)
    (hlen : 2 ≤ stream.Values.length)
    (hfirst : stream.Values.head? = some first)
    (hlast : stream.Values.getLast? = some last) :
    ∃ r, results[i]? = some r ∧
      (r.State = AlertState.StateFiring ↔
        (F ≤ (last.Timestamp.val - first.Timestamp.val) * 1000000 ∨ F = minInt64)) ∧
      (r.State = AlertState.StatePending ↔
        ¬ (F ≤ (last.Timestamp.val - first.Timestamp.val) * 1000000 ∨ F = minInt64)) := by
  obtain ⟨r, hr, ha⟩ := calculateAlerts_getElem? hres i stream hi
  refine ⟨r, hr, ?_⟩
  rw [forDuration_of_parse hparse, alertFor_of_two_le E rule F stream first last hlen hfirst hlast]
    at ha
  obtain ⟨hb1, hb2⟩ := ParseDuration_bounds hparse
  rw [← le_saturate64_iff hb1 hb2]
  split at ha
  · rename_i hc
    cases ha
    simp [hc]
  · rename_i hc
    cases ha
    simp [hc]

/-- C1: for a rule whose "for" parses to a duration F and a series with two or
more samples, inside the domain the specification gives the evaluator (a
non-negative "for", or samples in chronological order), the result at the
position of the series is FIRING if and only if the span last - first (in
nanoseconds) is at least F, and PENDING otherwise; a span equal to F is
FIRING. -/
theorem state_iff_span (E : TemplateEngine) (rule : Rule) (F : Int) (matrix : Matrix)
    (results : List AlertResult) (i : Nat) (stream : SampleStream) (first last : SamplePair)
    (hparse : ParseDuration rule.For = some F)
    (hres : calculateAlerts E matrix rule = some results)
    (hi : matrix[i]? = some stream)
    (hlen : 2 ≤ stream.Values.length)
    (hfirst : stream.Values.head? = some first)
    (hlast : stream.Values.getLast? = some last)
    (hdom : 0 ≤ F ∨ first.Timestamp.val ≤ last.Timestamp.val) :
    ∃ r, results[i]? = some r ∧
      (r.State = AlertState.StateFiring ↔
        F ≤ (last.Timestamp.val - first.Timestamp.val) * 1000000) ∧
      (r.State = AlertState.StatePending ↔
        ¬ F ≤ (last.Timestamp.val - first.Timestamp.val) * 1000000) ∧
      ((last.Timestamp.val - first.Timestamp.val) * 1000000 = F →
        r.State = AlertState.StateFiring) := by
  obtain ⟨r, hr, h1, h2⟩ :=
    state_of_span E rule F matrix results i stream first last hparse hres hi hlen hfirst hlast
  have hor : (F ≤ (last.Timestamp.val - first.Timestamp.val) * 1000000 ∨ F = minInt64) ↔
      F ≤ (last.Timestamp.val - first.Timestamp.val) * 1000000 := by
    unfold minInt64
    constructor
    · intro h
      have hlo := last.Timestamp.lo
      have hhi := first.Timestamp.hi
      rcases hdom with hd | hd <;> omega
    · exact Or.inl
  rw [hor] at h1 h2
  exact ⟨r, hr, h1, h2, fun he => h1.2 (by omega)⟩

/-- A concrete instance of C1: "for" 5m, samples at 0 and 300000 ms (a span
exactly equal to "for"). -/
theorem state_iff_span_witness :
    ∃ r, ([{ Metric := ∅, Duration := 300000000000, State := AlertState.StateFiring,
             Annotations := some ∅ }] : List AlertResult)[0]? = some r ∧
      (r.State = AlertState.StateFiring ↔
        (300000000000 : Int) ≤
          ((sampleAt 300000 (by decide)).Timestamp.val - (sampleAt 0 (by decide)).Timestamp.val)
            * 1000000) ∧
      (r.State = AlertState.StatePending ↔
        ¬ (300000000000 : Int) ≤
          ((sampleAt 300000 (by decide)).Timestamp.val - (sampleAt 0 (by decide)).Timestamp.val)
            * 1000000) ∧
      (((sampleAt 300000 (by decide)).Timestamp.val - (sampleAt 0 (by decide)).Timestamp.val)
          * 1000000 = (300000000000 : Int) →
        r.State = AlertState.StateFiring) :=
  state_iff_span (textTemplate noEngine) (ruleFor "5m") 300000000000
    [seriesOf [sampleAt 0 (by decide), sampleAt 300000 (by decide)]]
    [{ Metric := ∅, Duration := 300000000000, State := AlertState.StateFiring,
       Annotations := some ∅ }]
    0 (seriesOf [sampleAt 0 (by decide), sampleAt 300000 (by decide)])
    (sampleAt 0 (by decide)) (sampleAt 300000 (by decide))
    (by decide) (by rfl) (by rfl) (by decide) (by rfl) (by rfl) (Or.inl (by decide))

/-- C2, the code fails the claim: under "for" 0s a series with one sample is
FIRING, but on a series with zero samples calculateAlerts indexes the sample
sequence at len - 1 = -1 and panics, so no FIRING result is produced. -/
theorem instant_firing_panics_on_empty_series :
    forDuration (ruleFor "0s") = 0 ∧
    statesOf (calculateAlerts (textTemplate noEngine) [seriesOf [sampleAt 0 (by decide)]]
      (ruleFor "0s")) = some [AlertState.StateFiring] ∧
    calculateAlerts (textTemplate noEngine) [seriesOf []] (ruleFor "0s") = none := by
  refine ⟨by decide, by decide, rfl⟩

/-- Apart from that panic an instant rule fires on every series: for a rule
with "for" empty or "0s" and a matrix whose series all have at least one sample,
in chronological order, calculateAlerts returns one result per series and every
result is FIRING. -/
theorem instant_firing (E : TemplateEngine) (rule : Rule) (matrix : Matrix)
    (hfor : rule.For = "" ∨ rule.For = "0s")
    (hseries : ∀ s ∈ matrix, ∃ first last, s.Values.head? = some first ∧
      s.Values.getLast? = some last ∧ first.Timestamp.val ≤ last.Timestamp.val) :
    ∃ results, calculateAlerts E matrix rule = some results ∧
      results.length = matrix.length ∧
      ∀ r ∈ results, r.State = AlertState.StateFiring := by
  have hfd := forDuration_of_instant hfor
  have hall : ∀ s ∈ matrix, ∃ r, alertFor E rule (forDuration rule) s = some r ∧
      r.State = AlertState.StateFiring := by
    intro s hs
    obtain ⟨first, last, hf, hl, hle⟩ := hseries s hs
    rw [hfd]
    by_cases h2 : s.Values.length < 2
    · rw [alertFor_of_lt_two E rule 0 s h2, if_pos rfl, hl]
      exact ⟨_, rfl, rfl⟩
    · rw [alertFor_of_two_le E rule 0 s first last (by omega) hf hl]
      have hsat : (0 : Int) ≤ saturate64 ((last.Timestamp.val - first.Timestamp.val) * 1000000) := by
        unfold saturate64 minInt64 maxInt64
        split
        · omega
        · split <;> omega
      rw [if_pos hsat]
      exact ⟨_, rfl, rfl⟩
  obtain ⟨results, hf2, hp⟩ := forall₂_of_forall matrix hall
  have hres := (calculateAlerts_some_iff E matrix rule results).2 hf2
  exact ⟨results, hres, calculateAlerts_length hres, hp⟩

/-- C3: when the query returns an empty matrix, evaluateRule reports exactly
one result for the rule: empty label set, zero duration, state SILENT, no
annotations, whatever the rule's "for" and annotation templates. -/
theorem evaluateRule_empty_matrix (E : TemplateEngine) (v1api : String → Except String QueryValue)
    (rule : Rule) (rep : List Report)
    (hquery : v1api rule.Expr = .ok (.matrix [])) :
    evaluateRule E v1api rule rep =
      some (rep ++ [{ rule := rule, metric := ∅, duration := 0, state := "SILENT",
                      annotations := none }]) := by
  unfold evaluateRule
  rw [hquery]
  rfl

/-- A concrete instance of C3: a rule with "for" 5m and one annotation
template, a query that returns no series, an empty reporter. -/
theorem evaluateRule_empty_matrix_witness :
    evaluateRule (textTemplate noEngine) (fun _ => .ok (.matrix []))
      { ruleFor "5m" with Annotations := AList.insert "summary" "down" ∅ } [] =
      some ([] ++ [{ rule := { ruleFor "5m" with Annotations := AList.insert "summary" "down" ∅ }
                     metric := ∅, duration := 0, state := "SILENT", annotations := none }]) :=
  evaluateRule_empty_matrix (textTemplate noEngine) (fun _ => .ok (.matrix []))
    { ruleFor "5m" with Annotations := AList.insert "summary" "down" ∅ } [] rfl

/-- C4, the code fails the claim: on a rule without "for" and a matrix whose
only series has no samples, calculateAlerts indexes the sample sequence at
len - 1 = -1 and panics. -/
theorem calculateAlerts_panics_on_empty_series :
    goIndex (seriesOf []).Values (((seriesOf []).Values.length : Int) - 1) = none ∧
    calculateAlerts (textTemplate noEngine) [seriesOf []] (ruleFor "") = none := by
  constructor <;> rfl

/-- C5, the code fails the claim: on a matrix of two series, the second one
without samples, and "for" 0s, calculateAlerts returns no result list at all. -/
theorem calculateAlerts_no_results_on_empty_series :
    calculateAlerts (textTemplate noEngine)
      [seriesOf [sampleAt 0 (by decide), sampleAt 10 (by decide)], seriesOf []] (ruleFor "0s")
      = none := by
  rfl

/-- Apart from that panic C5 holds: a call that returns gives one result per
series, in input order, each carrying the label set of its series; and the call
returns as soon as no series is empty or "for" is not zero. -/
theorem calculateAlerts_one_result_per_series (E : TemplateEngine) (rule : Rule) (matrix : Matrix) :
    ((∀ s ∈ matrix, s.Values = [] → forDuration rule ≠ 0) →
      ∃ results, calculateAlerts E matrix rule = some results) ∧
    ∀ results, calculateAlerts E matrix rule = some results →
      results.length = matrix.length ∧
      ∀ (i : Nat) (stream : SampleStream), matrix[i]? = some stream →
        ∃ r : AlertResult, results[i]? = some r ∧ r.Metric = stream.Metric := by
  constructor
  · intro hsafe
    have hall : ∀ s ∈ matrix, ∃ r, alertFor E rule (forDuration rule) s = some r ∧ True := by
      intro s hs
      cases ha : alertFor E rule (forDuration rule) s with
      | none =>
        obtain ⟨h1, h2⟩ := (alertFor_eq_none_iff E rule _ s).1 ha
        exact absurd h2 (hsafe s hs h1)
      | some r => exact ⟨r, rfl, trivial⟩
    obtain ⟨results, hf2, _⟩ := forall₂_of_forall matrix hall
    exact ⟨results, (calculateAlerts_some_iff E matrix rule results).2 hf2⟩
  · intro results hres
    refine ⟨calculateAlerts_length hres, ?_⟩
    intro i stream hi
    obtain ⟨r, hr, ha⟩ := calculateAlerts_getElem? hres i stream hi
    exact ⟨r, hr, alertFor_metric ha⟩

/-- C6, the claim as stated fails: samples at 0 and 9223372036855 ms span more
nanoseconds than a Duration holds, and the Duration of the result is
maxDuration, not the span. -/
theorem duration_counterexample :
    durationsOf (calculateAlerts (textTemplate noEngine)
      [seriesOf [sampleAt 0 (by decide), sampleAt 9223372036855 (by decide)]] (ruleFor ""))
      = some [9223372036854775807] ∧
    (9223372036854775807 : Int) ≠ ((9223372036855 : Int) - 0) * 1000000 := by
  decide

/-- C6 (amended): for a series with two or more samples the Duration of its
result is the span last - first in nanoseconds when that fits an int64, the
largest Duration when the span is larger and the smallest Duration when it is
smaller; for a series with fewer than two samples the Duration of its result
is zero. -/
theorem duration_eq_span (E : TemplateEngine) (rule : Rule) (matrix : Matrix)
    (results : List AlertResult) (i : Nat) (stream : SampleStream)
    (hres : calculateAlerts E matrix rule = some results)
    (hi : matrix[i]? = some stream) :
    ∃ r, results[i]? = some r ∧
      (∀ first last, stream.Values.head? = some first → stream.Values.getLast? = some last →
        2 ≤ stream.Values.length →
          (minInt64 ≤ (last.Timestamp.val - first.Timestamp.val) * 1000000 →
            (last.Timestamp.val - first.Timestamp.val) * 1000000 ≤ maxInt64 →
            r.Duration = (last.Timestamp.val - first.Timestamp.val) * 1000000) ∧
          (maxInt64 < (last.Timestamp.val - first.Timestamp.val) * 1000000 →
            r.Duration = maxInt64) ∧
          ((last.Timestamp.val - first.Timestamp.val) * 1000000 < minInt64 →
            r.Duration = minInt64)) ∧
      (stream.Values.length < 2 → r.Duration = 0) := by
  obtain ⟨r, hr, ha⟩ := calculateAlerts_getElem? hres i stream hi
  refine ⟨r, hr, ?_, ?_⟩
  · intro first last hf hl h2
    rw [alertFor_of_two_le E rule _ stream first last h2 hf hl] at ha
    have hd : r.Duration = saturate64 ((last.Timestamp.val - first.Timestamp.val) * 1000000) := by
      split at ha
      · cases ha; rfl
      · cases ha; rfl
    rw [hd]
    unfold saturate64 minInt64 maxInt64
    refine ⟨?_, ?_, ?_⟩
    · intro h1 h2
      rw [if_neg (by omega), if_neg (by omega)]
    · intro h1
      rw [if_neg (by omega), if_pos h1]
    · intro h1
      rw [if_pos h1]
  · intro h2
    rw [alertFor_of_lt_two E rule _ stream h2] at ha
    split at ha
    · cases hl : stream.Values.getLast? with
      | none => rw [hl] at ha; cases ha
      | some last =>
        rw [hl] at ha
        cases ha; rfl
    · cases ha; rfl

/-- A concrete instance of C6: "for" 5m, samples at 0 and 600000 ms. -/
theorem duration_eq_span_witness :
    ∃ r, ([{ Metric := ∅, Duration := 600000000000, State := AlertState.StateFiring,
             Annotations := some ∅ }] : List AlertResult)[0]? = some r ∧
      (∀ first last,
        (seriesOf [sampleAt 0 (by decide), sampleAt 600000 (by decide)]).Values.head? = some first →
        (seriesOf [sampleAt 0 (by decide), sampleAt 600000 (by decide)]).Values.getLast?
          = some last →
        2 ≤ (seriesOf [sampleAt 0 (by decide), sampleAt 600000 (by decide)]).Values.length →
          (minInt64 ≤ (last.Timestamp.val - first.Timestamp.val) * 1000000 →
            (last.Timestamp.val - first.Timestamp.val) * 1000000 ≤ maxInt64 →
            r.Duration = (last.Timestamp.val - first.Timestamp.val) * 1000000) ∧
          (maxInt64 < (last.Timestamp.val - first.Timestamp.val) * 1000000 →
            r.Duration = maxInt64) ∧
          ((last.Timestamp.val - first.Timestamp.val) * 1000000 < minInt64 →
            r.Duration = minInt64)) ∧
      ((seriesOf [sampleAt 0 (by decide), sampleAt 600000 (by decide)]).Values.length < 2 →
        r.Duration = 0) :=
  duration_eq_span (textTemplate noEngine) (ruleFor "5m")
    [seriesOf [sampleAt 0 (by decide), sampleAt 600000 (by decide)]]
    [{ Metric := ∅, Duration := 600000000000, State := AlertState.StateFiring,
       Annotations := some ∅ }]
    0 (seriesOf [sampleAt 0 (by decide), sampleAt 600000 (by decide)]) (by rfl) (by rfl)

theorem alertFor_congr_rule (E : TemplateEngine) (rule : Rule) (f : String) (fd : Int)
    (s : SampleStream) :
    alertFor E { rule with For := f } fd s = alertFor E rule fd s := rfl

theorem loop_congr_rule (E : TemplateEngine) (rule : Rule) (f : String) (fd : Int)
    (m : List SampleStream) (acc : List AlertResult) :
    calculateAlertsLoop E { rule with For := f } fd m acc = calculateAlertsLoop E rule fd m acc := by
  induction m generalizing acc with
  | nil => rfl
  | cons s m ih =>
    simp only [calculateAlertsLoop, alertFor_congr_rule]
    cases alertFor E rule fd s with
    | none => rfl
    | some r => exact ih _

/-- C7: a "for" that does not parse is taken as zero, and calculateAlerts then
has the same outcome as for the same rule with "for" empty, on every matrix; on
a matrix without empty series that outcome is a result list. -/
theorem malformed_for_absorbed (E : TemplateEngine) (rule : Rule) (matrix : Matrix)
    (hfail : ParseDuration rule.For = none) :
    forDuration rule = 0 ∧
      calculateAlerts E matrix rule = calculateAlerts E matrix { rule with For := "" } ∧
      ((∀ s ∈ matrix, s.Values ≠ []) →
        ∃ results, calculateAlerts E matrix rule = some results) := by
  have h0 : forDuration rule = 0 := forDuration_of_fail hfail
  have h1 : forDuration { rule with For := "" } = 0 := forDuration_of_instant (Or.inl rfl)
  refine ⟨h0, ?_, ?_⟩
  · unfold calculateAlerts
    rw [h0, h1]
    exact (loop_congr_rule E rule "" 0 matrix []).symm
  · intro hne
    exact (calculateAlerts_one_result_per_series E rule matrix).1
      (fun s hs hv => absurd hv (hne s hs))

/-- A concrete instance of C7: "for" written "5 minutes", one series with one
sample. -/
theorem malformed_for_absorbed_witness :
    forDuration (ruleFor "5 minutes") = 0 ∧
      calculateAlerts (textTemplate noEngine) [seriesOf [sampleAt 0 (by decide)]]
          (ruleFor "5 minutes") =
        calculateAlerts (textTemplate noEngine) [seriesOf [sampleAt 0 (by decide)]]
          { ruleFor "5 minutes" with For := "" } ∧
      ((∀ s ∈ [seriesOf [sampleAt 0 (by decide)]], s.Values ≠ []) →
        ∃ results, calculateAlerts (textTemplate noEngine) [seriesOf [sampleAt 0 (by decide)]]
          (ruleFor "5 minutes") = some results) :=
  malformed_for_absorbed (textTemplate noEngine) (ruleFor "5 minutes")
    [seriesOf [sampleAt 0 (by decide)]] (by decide)

/-- The annotations of the result of a round, by state. -/
theorem alertFor_annotations {E : TemplateEngine} {rule : Rule} {fd : Int} {s : SampleStream}
    {r : AlertResult} (ha : alertFor E rule fd s = some r) :
    (r.State = AlertState.StateFiring →
      ∃ last, s.Values.getLast? = some last ∧
        r.Annotations = some (renderAnnotations E rule.Annotations s.Metric last.Value)) ∧
    (r.State = AlertState.StatePending → r.Annotations = none) ∧
    r.State ≠ AlertState.StateSilent := by
  by_cases h2 : s.Values.length < 2
  · rw [alertFor_of_lt_two E rule fd s h2] at ha
    split at ha
    · cases hl : s.Values.getLast? with
      | none => rw [hl] at ha; cases ha
      | some last =>
        rw [hl] at ha
        cases ha
        refine ⟨fun _ => ⟨last, rfl, rfl⟩, ?_, ?_⟩
        · intro h; cases h
        · intro h; cases h
    · cases ha
      refine ⟨?_, fun _ => rfl, ?_⟩
      · intro h; cases h
      · intro h; cases h
  · have hne : s.Values ≠ [] := by
      intro hv; simp [hv] at h2
    obtain ⟨first, last, hf, hl⟩ := head?_getLast?_of_ne_nil hne
    rw [alertFor_of_two_le E rule fd s first last (by omega) hf hl] at ha
    split at ha
    · cases ha
      refine ⟨fun _ => ⟨last, hl, rfl⟩, ?_, ?_⟩
      · intro h; cases h
      · intro h; cases h
    · cases ha
      refine ⟨?_, fun _ => rfl, ?_⟩
      · intro h; cases h
      · intro h; cases h

/-- C8: in the result for a series, a FIRING state comes with the annotations
renderAnnotations gives for the rule's templates, the label set of the series
and the value of its last sample; a PENDING state comes with no annotations
(the nil map). -/
theorem annotations_by_state (E : TemplateEngine) (rule : Rule) (matrix : Matrix)
    (results : List AlertResult) (i : Nat) (stream : SampleStream)
    (hres : calculateAlerts E matrix rule = some results)
    (hi : matrix[i]? = some stream) :
    ∃ r, results[i]? = some r ∧
      (r.State = AlertState.StateFiring →
        ∃ last, stream.Values.getLast? = some last ∧
          r.Annotations = some (renderAnnotations E rule.Annotations stream.Metric last.Value)) ∧
      (r.State = AlertState.StatePending → r.Annotations = none) := by
  obtain ⟨r, hr, ha⟩ := calculateAlerts_getElem? hres i stream hi
  obtain ⟨h1, h2, _⟩ := alertFor_annotations ha
  exact ⟨r, hr, h1, h2⟩

/-- A concrete instance of C8: a rule without "for" and with one annotation
template, one series with a single sample. -/
theorem annotations_by_state_witness :
    ∃ r, ([{ Metric := ∅, Duration := 0, State := AlertState.StateFiring,
             Annotations := some (AList.insert "summary" "down" ∅) }] : List AlertResult)[0]?
        = some r ∧
      (r.State = AlertState.StateFiring →
        ∃ last, (seriesOf [sampleAt 0 (by decide)]).Values.getLast? = some last ∧
          r.Annotations = some (renderAnnotations (textTemplate noEngine)
            ({ ruleFor "" with Annotations := AList.insert "summary" "down" ∅ } : Rule).Annotations
            (seriesOf [sampleAt 0 (by decide)]).Metric last.Value)) ∧
      (r.State = AlertState.StatePending → r.Annotations = none) :=
  annotations_by_state (textTemplate noEngine)
    { ruleFor "" with Annotations := AList.insert "summary" "down" ∅ }
    [seriesOf [sampleAt 0 (by decide)]]
    [{ Metric := ∅, Duration := 0, State := AlertState.StateFiring,
       Annotations := some (AList.insert "summary" "down" ∅) }]
    0 (seriesOf [sampleAt 0 (by decide)]) (by rfl) (by rfl)

/-! ## The annotation renderer -/

/-- Looking a key up after inserting the images of a list of entries one by
one: the image of the entry for the key, or what was there before. -/
theorem lookup_foldl_insert (f : String → String) (l : List (Sigma fun _ : String => String))
    (hl : l.NodupKeys) (init : GoMap) (k : String) :
    (l.foldl (fun m kv => m.insert kv.1 (f kv.2)) init).lookup k =
      match l.dlookup k with
      | some v => some (f v)
      | none => init.lookup k := by
  induction l generalizing init with
  | nil => rfl
  | cons e l ih =>
    obtain ⟨a, b⟩ := e
    rw [List.nodupKeys_cons] at hl
    rw [List.foldl_cons, ih hl.2]
    by_cases hk : k = a
    · subst hk
      have hnone : l.dlookup k = none := List.dlookup_eq_none.2 hl.1
      rw [hnone, List.dlookup_cons_eq]
      exact AList.lookup_insert _
    · rw [List.dlookup_cons_ne _ _ hk]
      cases l.dlookup k with
      | some v => rfl
      | none => exact AList.lookup_insert_ne hk

/-- The rendered map, key by key. -/
theorem renderAnnotations_lookup (E : TemplateEngine) (raw labels : GoMap) (value : SampleValue)
    (k : String) :
    (renderAnnotations E raw labels value).lookup k =
      (raw.lookup k).map (renderOne E (templateData labels value)) := by
  unfold renderAnnotations
  simp only []
  rw [lookup_foldl_insert (renderOne E (templateData labels value)) raw.entries raw.nodupKeys ∅ k]
  show _ = (raw.entries.dlookup k).map _
  cases raw.entries.dlookup k with
  | some v => rfl
  | none => exact AList.lookup_empty k

/-- The labels of the template data are the labels of the series. -/
theorem templateData_lookup (labels : GoMap) (value : SampleValue) (k : String) :
    (templateData labels value).Labels.lookup k = labels.lookup k := by
  unfold templateData
  simp only []
  rw [lookup_foldl_insert (fun v => v) labels.entries labels.nodupKeys ∅ k]
  show _ = labels.entries.dlookup k
  cases labels.entries.dlookup k with
  | some v => rfl
  | none => exact AList.lookup_empty k

theorem renderAnnotations_mem (E : TemplateEngine) (raw labels : GoMap) (value : SampleValue)
    (k : String) : k ∈ renderAnnotations E raw labels value ↔ k ∈ raw := by
  rw [← AList.lookup_isSome, ← AList.lookup_isSome, renderAnnotations_lookup]
  cases raw.lookup k <;> simp

/-- C9: the map renderAnnotations returns has exactly the keys of the input
templates, one entry each; under each key stands the output of its template,
or a template_error placeholder when the template does not parse, or a
render_error placeholder when it does not execute, whatever happens to the
other keys. -/
theorem renderAnnotations_keys (E : TemplateEngine) (raw labels : GoMap) (value : SampleValue) :
    (∀ k, k ∈ (renderAnnotations E raw labels value).keys ↔ k ∈ raw.keys) ∧
    (renderAnnotations E raw labels value).keys.Nodup ∧
    (renderAnnotations E raw labels value).keys.length = raw.keys.length ∧
    ∀ k v, raw.lookup k = some v →
      (∀ err, E.Parse (helper ++ v) = .error err →
        (renderAnnotations E raw labels value).lookup k
          = some ("<template_error: " ++ err ++ ">")) ∧
      (∀ tmpl err, E.Parse (helper ++ v) = .ok tmpl →
        E.Execute tmpl (templateData labels value) = .error err →
        (renderAnnotations E raw labels value).lookup k
          = some ("<render_error: " ++ err ++ ">")) ∧
      (∀ tmpl out, E.Parse (helper ++ v) = .ok tmpl →
        E.Execute tmpl (templateData labels value) = .ok out →
        (renderAnnotations E raw labels value).lookup k = some out) := by
  have hmem : ∀ k, k ∈ (renderAnnotations E raw labels value).keys ↔ k ∈ raw.keys := by
    intro k
    rw [← AList.mem_keys, ← AList.mem_keys]
    exact renderAnnotations_mem E raw labels value k
  refine ⟨hmem, AList.keys_nodup _, ?_, ?_⟩
  · exact ((List.perm_ext_iff_of_nodup (AList.keys_nodup _) (AList.keys_nodup _)).2 hmem).length_eq
  · intro k v hv
    rw [renderAnnotations_lookup, hv]
    refine ⟨?_, ?_, ?_⟩
    · intro err hp
      simp only [Option.map_some', renderOne, hp]
    · intro tmpl err hp he
      simp only [Option.map_some', renderOne, hp, he]
    · intro tmpl out hp he
      simp only [Option.map_some', renderOne, hp, he]

/-! ## The template fragment on a reference to a label -/

theorem takeWhile_dropWhile_append {p : Char → Bool} (xs : List Char) (c : Char) (r : List Char)
    (hx : ∀ x ∈ xs, p x = true) (hc : p c = false) :
    (xs ++ c :: r).takeWhile p = xs ∧ (xs ++ c :: r).dropWhile p = c :: r := by
  induction xs with
  | nil => simp [List.takeWhile, List.dropWhile, hc]
  | cons x xs ih =>
    have hxx : p x = true := hx x (List.mem_cons_self x xs)
    obtain ⟨h1, h2⟩ := ih (fun y hy => hx y (List.mem_cons_of_mem x hy))
    simp [List.takeWhile, List.dropWhile, hxx, h1, h2]

theorem splitAtDelim_text (t : List Char) (ht : '{' ∉ t) : splitAtDelim t = (t, none) := by
  induction t with
  | nil => rfl
  | cons c t ih =>
    have hc : c ≠ '{' := fun h => ht (h ▸ List.mem_cons_self c t)
    have ht2 : '{' ∉ t := fun h => ht (List.mem_cons_of_mem c h)
    rw [splitAtDelim]
    · rw [ih ht2]
    · intro rest h
      exact absurd h hc

theorem splitAtDelim_text_delim (t rest : List Char) (ht : '{' ∉ t) :
    splitAtDelim (t ++ '{' :: '{' :: rest) = (t, some rest) := by
  induction t with
  | nil => rfl
  | cons c t ih =>
    have hc : c ≠ '{' := fun h => ht (h ▸ List.mem_cons_self c t)
    have ht2 : '{' ∉ t := fun h => ht (List.mem_cons_of_mem c h)
    rw [List.cons_append, splitAtDelim]
    · rw [ih ht2]
    · intro rest h
      exact absurd h hc

theorem parseFields_stop (fuel : Nat) (r : List Char) :
    parseFields (fuel + 1) (' ' :: r) = some ([], ' ' :: r) := by
  rw [parseFields]
  intro c rest h
  cases h

theorem parseFields_one (fuel : Nat) (f0 : Char) (fs r : List Char)
    (h0 : isIdentStart f0 = true) (hfs : ∀ x ∈ fs, isAlnum x = true) :
    parseFields (fuel + 2) ('.' :: f0 :: (fs ++ ' ' :: r)) =
      some ([String.mk (f0 :: fs)], ' ' :: r) := by
  obtain ⟨h1, h2⟩ := takeWhile_dropWhile_append fs ' ' r hfs (by decide)
  rw [parseFields, if_pos h0, h1, h2, parseFields_stop]

theorem parseFields_one_of_le (fuel : Nat) (hfuel : 2 ≤ fuel) (f0 : Char) (fs r : List Char)
    (h0 : isIdentStart f0 = true) (hfs : ∀ x ∈ fs, isAlnum x = true) :
    parseFields fuel ('.' :: f0 :: (fs ++ ' ' :: r)) =
      some ([String.mk (f0 :: fs)], ' ' :: r) := by
  obtain ⟨k, rfl⟩ : ∃ k, fuel = k + 2 := ⟨fuel - 2, by omega⟩
  exact parseFields_one k f0 fs r h0 hfs

theorem dropWhile_space_one (c : Char) (r : List Char) (hc : isSpace c = false) :
    (' ' :: c :: r).dropWhile isSpace = c :: r := by
  have hs : isSpace ' ' = true := by decide
  simp [List.dropWhile, hs, hc]

theorem parseOperand_variable (name r : List Char) (hname : ∀ x ∈ name, isAlnum x = true) :
    parseOperand ('$' :: (name ++ ' ' :: r)) =
      some (Operand.variable (String.mk ('$' :: name)) [], ' ' :: r) := by
  obtain ⟨h1, h2⟩ := takeWhile_dropWhile_append name ' ' r hname (by decide)
  simp only [parseOperand, h1, h2, parseFields_stop]

theorem parseOperand_variable_field (name : List Char) (f0 : Char) (fs r : List Char)
    (hname : ∀ x ∈ name, isAlnum x = true) (h0 : isIdentStart f0 = true)
    (hfs : ∀ x ∈ fs, isAlnum x = true) :
    parseOperand ('$' :: (name ++ '.' :: f0 :: (fs ++ ' ' :: r))) =
      some (Operand.variable (String.mk ('$' :: name)) [String.mk (f0 :: fs)], ' ' :: r) := by
  obtain ⟨h1, h2⟩ :=
    takeWhile_dropWhile_append name '.' (f0 :: (fs ++ ' ' :: r)) hname (by decide)
  have hfuel : 2 ≤ (name ++ '.' :: f0 :: (fs ++ ' ' :: r)).length + 1 := by
    simp only [List.length_append, List.length_cons]; omega
  simp only [parseOperand, h1, h2, parseFields_one_of_le _ hfuel f0 fs r h0 hfs]

theorem parseOperand_field (f0 : Char) (fs r : List Char) (h0 : isIdentStart f0 = true)
    (hfs : ∀ x ∈ fs, isAlnum x = true) :
    parseOperand ('.' :: f0 :: (fs ++ ' ' :: r)) =
      some (Operand.field [String.mk (f0 :: fs)], ' ' :: r) := by
  have hfuel : 2 ≤ ('.' :: f0 :: (fs ++ ' ' :: r)).length + 1 := by
    simp only [List.length_append, List.length_cons]; omega
  simp only [parseOperand, parseFields_one_of_le _ hfuel f0 fs r h0 hfs]

/-- The action that declares a variable from a field of dot. -/
theorem parseAction_declare (name : List Char) (f0 : Char) (fs r : List Char)
    (hname : ∀ x ∈ name, isAlnum x = true) (h0 : isIdentStart f0 = true)
    (hfs : ∀ x ∈ fs, isAlnum x = true) :
    parseAction (' ' :: '$' :: (name ++ ' ' :: ':' :: '=' :: ' ' :: '.' :: f0 ::
        (fs ++ ' ' :: '}' :: '}' :: r))) =
      some (some (String.mk ('$' :: name)), Operand.field [String.mk (f0 :: fs)], r) := by
  unfold parseAction
  rw [dropWhile_space_one '$' _ (by decide), parseOperand_variable name _ hname]
  simp only []
  rw [dropWhile_space_one ':' _ (by decide)]
  simp only []
  rw [dropWhile_space_one '.' _ (by decide), parseOperand_field f0 fs _ h0 hfs]
  simp only []
  rw [dropWhile_space_one '}' _ (by decide)]
  rfl

/-- The action that prints a field of a variable. -/
theorem parseAction_variable_field (name : List Char) (f0 : Char) (fs r : List Char)
    (hname : ∀ x ∈ name, isAlnum x = true) (h0 : isIdentStart f0 = true)
    (hfs : ∀ x ∈ fs, isAlnum x = true) :
    parseAction (' ' :: '$' :: (name ++ '.' :: f0 :: (fs ++ ' ' :: '}' :: '}' :: r))) =
      some (none, Operand.variable (String.mk ('$' :: name)) [String.mk (f0 :: fs)], r) := by
  unfold parseAction
  rw [dropWhile_space_one '$' _ (by decide), parseOperand_variable_field name f0 fs _ hname h0 hfs]
  simp only []
  rw [dropWhile_space_one '}' _ (by decide)]
  rfl

theorem parseTemplate_text (fuel : Nat) (t : List Char) (vars : List (String × Sym))
    (ht : '{' ∉ t) : parseTemplate (fuel + 1) t vars = some [Piece.text (String.mk t)] := by
  rw [parseTemplate, splitAtDelim_text t ht]

theorem parseTemplate_declare (fuel : Nat) (txt name : List Char) (f0 : Char) (fs r : List Char)
    (vars : List (String × Sym)) (sym : Sym) (ht : '{' ∉ txt)
    (hname : ∀ x ∈ name, isAlnum x = true) (h0 : isIdentStart f0 = true)
    (hfs : ∀ x ∈ fs, isAlnum x = true)
    (hsym : evalOperand vars (Operand.field [String.mk (f0 :: fs)]) = some sym) :
    parseTemplate (fuel + 1)
        (txt ++ '{' :: '{' :: ' ' :: '$' :: (name ++ ' ' :: ':' :: '=' :: ' ' :: '.' :: f0 ::
          (fs ++ ' ' :: '}' :: '}' :: r))) vars =
      match parseTemplate fuel r ((String.mk ('$' :: name), sym) :: vars) with
      | none => none
      | some ps => some (Piece.text (String.mk txt) :: ps) := by
  rw [parseTemplate, splitAtDelim_text_delim txt _ ht]
  simp only []
  rw [parseAction_declare name f0 fs r hname h0 hfs]
  simp only []
  rw [hsym]

theorem parseTemplate_variable_field (fuel : Nat) (txt name : List Char) (f0 : Char)
    (fs r : List Char) (vars : List (String × Sym)) (n : String) (ht : '{' ∉ txt)
    (hname : ∀ x ∈ name, isAlnum x = true) (h0 : isIdentStart f0 = true)
    (hfs : ∀ x ∈ fs, isAlnum x = true)
    (hsym : evalOperand vars
      (Operand.variable (String.mk ('$' :: name)) [String.mk (f0 :: fs)]) = some (Sym.label n)) :
    parseTemplate (fuel + 1)
        (txt ++ '{' :: '{' :: ' ' :: '$' :: (name ++ '.' :: f0 ::
          (fs ++ ' ' :: '}' :: '}' :: r))) vars =
      match parseTemplate fuel r vars with
      | none => none
      | some ps => some (Piece.text (String.mk txt) :: Piece.label n :: ps) := by
  rw [parseTemplate, splitAtDelim_text_delim txt _ ht]
  simp only []
  rw [parseAction_variable_field name f0 fs r hname h0 hfs]
  simp only []
  rw [hsym]

/-- The pieces of the helper block followed by text, a reference to a label and
more text. -/
theorem parseTemplate_label_reference (fuel : Nat) (pre post : List Char) (n0 : Char)
    (ns : List Char) (hpre : '{' ∉ pre) (hpost : '{' ∉ post) (h0 : isIdentStart n0 = true)
    (hns : ∀ x ∈ ns, isAlnum x = true) :
    parseTemplate (fuel + 4)
        (helper.toList ++ (pre ++ ("\x7b\x7b $labels.".toList ++ ((n0 :: ns) ++ (" \x7d\x7d".toList ++ post)))))
        [("$", Sym.data)] =
      some [Piece.text "", Piece.text "", Piece.text (String.mk pre),
            Piece.label (String.mk (n0 :: ns)), Piece.text (String.mk post)] := by
  have e : helper.toList ++ (pre ++ ("\x7b\x7b $labels.".toList ++ ((n0 :: ns) ++ (" \x7d\x7d".toList ++ post))))
      = [] ++ '{' :: '{' :: ' ' :: '$' :: ("labels".toList ++ ' ' :: ':' :: '=' :: ' ' :: '.' :: 'L' ::
          ("abels".toList ++ ' ' :: '}' :: '}' ::
            ([] ++ '{' :: '{' :: ' ' :: '$' :: ("value".toList ++ ' ' :: ':' :: '=' :: ' ' :: '.' ::
              'V' :: ("alue".toList ++ ' ' :: '}' :: '}' ::
                (pre ++ '{' :: '{' :: ' ' :: '$' :: ("labels".toList ++ '.' :: n0 ::
                  (ns ++ ' ' :: '}' :: '}' :: post)))))))) := by
    simp [helper]
  rw [e]
  rw [parseTemplate_declare (fuel + 3) [] "labels".toList 'L' "abels".toList _
    [("$", Sym.data)] Sym.labels (by simp) (by decide) (by decide) (by decide) (by decide)]
  rw [parseTemplate_declare (fuel + 2) [] "value".toList 'V' "alue".toList _
    _ Sym.value (by simp) (by decide) (by decide) (by decide) (by decide)]
  rw [parseTemplate_variable_field (fuel + 1) pre "labels".toList n0 ns post _
    (String.mk (n0 :: ns)) hpre (by decide) h0 hns (by
      have hl : List.lookup (String.mk ('$' :: "labels".toList))
          [(String.mk ('$' :: "value".toList), Sym.value),
           (String.mk ('$' :: "labels".toList), Sym.labels), ("$", Sym.data)]
          = some Sym.labels := by decide
      simp only [evalOperand, hl]
      rfl)]
  rw [parseTemplate_text fuel post _ hpost]

/-- What the loop body stores for a template made of text, a reference to a
label and more text: the text with the element of the label map in place of
the reference, and with `<no value>` there when the map has no such key. -/
theorem renderOne_label_reference (ext : TemplateEngine) (data : TemplateData)
    (name pre post : String) (hname : IsLabelName name)
    (hpre : '{' ∉ pre.toList) (hpost : '{' ∉ post.toList) :
    renderOne (textTemplate ext) data (pre ++ labelReference name ++ post) =
      pre ++ (data.Labels.lookup name).getD "<no value>" ++ post := by
  obtain ⟨n0, ns, hn, h0, hns⟩ := hname
  have hlist : (helper ++ (pre ++ labelReference name ++ post)).toList =
      helper.toList ++ (pre.toList ++ ("\x7b\x7b $labels.".toList ++ ((n0 :: ns) ++
        (" \x7d\x7d".toList ++ post.toList)))) := by
    simp [labelReference, ← hn]
  have hlen : ∃ k, (helper ++ (pre ++ labelReference name ++ post)).length + 1 = k + 4 := by
    refine ⟨(helper ++ (pre ++ labelReference name ++ post)).length - 3, ?_⟩
    have h46 : helper.length = 46 := by decide
    have := String.length_append helper (pre ++ labelReference name ++ post)
    omega
  obtain ⟨k, hk⟩ := hlen
  have hparse : (textTemplate ext).Parse (helper ++ (pre ++ labelReference name ++ post)) =
      .ok (.inl [Piece.text "", Piece.text "", Piece.text pre, Piece.label name,
        Piece.text post]) := by
    show (match parseTemplate ((helper ++ (pre ++ labelReference name ++ post)).length + 1)
        (helper ++ (pre ++ labelReference name ++ post)).toList [("$", Sym.data)] with
      | some ps => Except.ok (Sum.inl ps)
      | none => _) = _
    rw [hk, hlist, parseTemplate_label_reference k pre.toList post.toList n0 ns hpre hpost h0 hns]
    simp only []
    rw [← hn]
    rfl
  unfold renderOne
  rw [hparse]
  show renderPieces data _ = _
  simp [renderPieces, Piece.render, String.join]

/-- C10, the claim as stated fails: on a series that only has the label job,
the template "instance {{ $labels.instance }} down" renders with the filler
`<no value>` for the reference, not with the empty string. -/
theorem undefined_label_counterexample :
    (renderAnnotations (textTemplate noEngine)
      (AList.insert "summary" ("instance " ++ labelReference "instance" ++ " down") ∅)
      (AList.insert "job" "api" ∅) ⟨0⟩).lookup "summary" = some "instance <no value> down" ∧
    "instance <no value> down" ≠ "instance " ++ "" ++ " down" := by
  decide

/-- C10 (amended): for a label set without the label N, renderAnnotations
renders a template made of literal text around a reference to label N as that
text with `<no value>` in place of the reference: the render does not fail and
no error placeholder is produced. -/
theorem undefined_label_renders_no_value (ext : TemplateEngine) (raw labels : GoMap)
    (value : SampleValue) (key N pre post : String)
    (hraw : raw.lookup key = some (pre ++ labelReference N ++ post))
    (hname : IsLabelName N)
    (hmissing : N ∉ labels)
    (hpre : '{' ∉ pre.toList) (hpost : '{' ∉ post.toList) :
    (renderAnnotations (textTemplate ext) raw labels value).lookup key =
      some (pre ++ "<no value>" ++ post) := by
  rw [renderAnnotations_lookup, hraw, Option.map_some',
    renderOne_label_reference ext _ N pre post hname hpre hpost, templateData_lookup,
    AList.lookup_eq_none.2 hmissing]
  rfl

/-- A concrete instance of C10: the template "instance {{ $labels.instance }}
down" on a series that only has the label job. -/
theorem undefined_label_renders_no_value_witness :
    (renderAnnotations (textTemplate noEngine)
      (AList.insert "summary" ("instance " ++ labelReference "instance" ++ " down") ∅)
      (AList.insert "job" "api" ∅) ⟨0⟩).lookup "summary" =
      some ("instance " ++ "<no value>" ++ " down") :=
  undefined_label_renders_no_value noEngine
    (AList.insert "summary" ("instance " ++ labelReference "instance" ++ " down") ∅)
    (AList.insert "job" "api" ∅) ⟨0⟩ "summary" "instance" "instance " " down"
    (by decide) ⟨'i', "nstance".toList, by decide, by decide, by decide⟩ (by decide)
    (by decide) (by decide)

end PromVerifier
